import Mathlib

/-!
Shallow embedding of the pngme chunk codec (src/chunk_type.rs, src/chunk.rs,
src/chunks.rs) together with proofs about its parsing, serialization and
checksum behaviour.  Bytes are modelled as `Nat` values below 256, byte
buffers as `List Nat`, and the fallible Rust functions as `Except`-valued
Lean functions.  The panic site in `chunks.rs` is modelled by an `Option`
wrapper (`none` = panic).
-/

set_option maxRecDepth 100000

deriving instance DecidableEq for Except

namespace Pngme

/-! ### ASCII classification (u8::is_ascii_lowercase / is_ascii_uppercase) -/

def isAsciiLower (b : Nat) : Bool := 97 ≤ b && b ≤ 122

def isAsciiUpper (b : Nat) : Bool := 65 ≤ b && b ≤ 90

def isAsciiLetter (b : Nat) : Bool := isAsciiLower b || isAsciiUpper b

/-! ### Big-endian u32 encoding (u32::to_be_bytes / u32::from_be_bytes) -/

def u32be (n : Nat) : List Nat :=
  [n / 2 ^ 24 % 256, n / 2 ^ 16 % 256, n / 2 ^ 8 % 256, n % 256]

def u32beDecode (l : List Nat) : Nat :=
  match l with
  | [b0, b1, b2, b3] => b0 * 2 ^ 24 + b1 * 2 ^ 16 + b2 * 2 ^ 8 + b3
  | _ => 0

/-! ### CRC-32/ISO-HDLC (the `crc` crate's `Crc::<u32>::new(&CRC_32_ISO_HDLC).checksum`):
reflected algorithm, polynomial 0xEDB88320, init 0xFFFFFFFF, xorout 0xFFFFFFFF. -/

def CRC_POLY : Nat := 0xEDB88320

def crcRound (c : Nat) : Nat :=
  if c % 2 = 1 then c / 2 ^^^ CRC_POLY else c / 2

def crcUpdate (c b : Nat) : Nat := crcRound^[8] (c ^^^ b)

def crcState (init : Nat) (data : List Nat) : Nat := data.foldl crcUpdate init

def crc32 (data : List Nat) : Nat := crcState 0xFFFFFFFF data ^^^ 0xFFFFFFFF

/-! ### ChunkType (src/chunk_type.rs) -/

inductive ChunkTypeError where
  | InvalidLen
  | InvalidFormat
deriving DecidableEq, Repr

structure ChunkType where
  c0 : Nat
  c1 : Nat
  c2 : Nat
  c3 : Nat
deriving DecidableEq, Repr

def ChunkType.bytes (t : ChunkType) : List Nat := [t.c0, t.c1, t.c2, t.c3]

def BIT_OF_INTEREST : Nat := 0b00100000

def BIT_SHIFT_NUM : Nat := 5

def ChunkType.is_reserved_bit_valid (t : ChunkType) : Bool :=
  (t.c2 &&& BIT_OF_INTEREST) >>> BIT_SHIFT_NUM == 0

def ChunkType.is_critical (t : ChunkType) : Bool :=
  (t.c0 &&& BIT_OF_INTEREST) >>> BIT_SHIFT_NUM == 0

def ChunkType.is_public (t : ChunkType) : Bool :=
  (t.c1 &&& BIT_OF_INTEREST) >>> BIT_SHIFT_NUM == 0

def ChunkType.is_safe_to_copy (t : ChunkType) : Bool :=
  (t.c3 &&& BIT_OF_INTEREST) >>> BIT_SHIFT_NUM == 1

def ChunkType.is_valid (t : ChunkType) : Bool :=
  (t.bytes.filter fun x => isAsciiLower x || isAsciiUpper x).length == 4 &&
    t.is_reserved_bit_valid

def ChunkType.try_from (b0 b1 b2 b3 : Nat) : Except ChunkTypeError ChunkType :=
  if ([b0, b1, b2, b3].filter fun x => isAsciiLower x || isAsciiUpper x).length = 4 then
    .ok ⟨b0, b1, b2, b3⟩
  else
    .error .InvalidFormat

def ChunkType.from_str (s : List Nat) : Except ChunkTypeError ChunkType :=
  match s with
  | [b0, b1, b2, b3] => ChunkType.try_from b0 b1 b2 b3
  | _ => .error .InvalidLen

/-- A UTF-8 continuation byte (`10xxxxxx`). -/
def utf8Cont (b : Nat) : Bool := 0x80 ≤ b && b < 0xC0

mutual

/-- UTF-8 validation/decoding as performed by `str::from_utf8`: returns the
decoded scalar values, or `none` on invalid UTF-8 (truncated sequences,
overlongs, surrogates and out-of-range sequences rejected). -/
def utf8Decode : (l : List Nat) → Option (List Nat)
  | [] => some []
  | b :: rest =>
    if b < 0x80 then (utf8Decode rest).map (b :: ·)
    else if b < 0xC2 then none
    else if b < 0xE0 then utf8Dec2 b rest
    else if b < 0xF0 then utf8Dec3 b rest
    else if b < 0xF5 then utf8Dec4 b rest
    else none

/-- Continuation of `utf8Decode` for a two-byte sequence with lead byte `b`. -/
def utf8Dec2 (b : Nat) : (l : List Nat) → Option (List Nat)
  | b1 :: rest1 =>
    if utf8Cont b1 then
      (utf8Decode rest1).map (((b - 0xC0) * 64 + (b1 - 0x80)) :: ·)
    else none
  | [] => none

/-- Continuation of `utf8Decode` for a three-byte sequence with lead byte `b`
(the second-byte window excludes overlong encodings for `0xE0` and surrogate
values for `0xED`). -/
def utf8Dec3 (b : Nat) : (l : List Nat) → Option (List Nat)
  | b1 :: b2 :: rest2 =>
    if (((if b = 0xE0 then 0xA0 else 0x80) ≤ b1) &&
          (b1 < if b = 0xED then 0xA0 else 0xC0)) && utf8Cont b2 then
      (utf8Decode rest2).map
        (((b - 0xE0) * 4096 + (b1 - 0x80) * 64 + (b2 - 0x80)) :: ·)
    else none
  | _ => none

/-- Continuation of `utf8Decode` for a four-byte sequence with lead byte `b`
(the second-byte window excludes overlong encodings for `0xF0` and
beyond-U+10FFFF values for `0xF4`). -/
def utf8Dec4 (b : Nat) : (l : List Nat) → Option (List Nat)
  | b1 :: b2 :: b3 :: rest3 =>
    if (((if b = 0xF0 then 0x90 else 0x80) ≤ b1) &&
          (b1 < if b = 0xF4 then 0x90 else 0xC0)) &&
        utf8Cont b2 && utf8Cont b3 then
      (utf8Decode rest3).map
        (((b - 0xF0) * 262144 + (b1 - 0x80) * 4096 + (b2 - 0x80) * 64 +
            (b3 - 0x80)) :: ·)
    else none
  | _ => none

end

/-- `impl fmt::Display for ChunkType`: renders the four code bytes through
`str::from_utf8(..).unwrap()`.  `none` models the panic of the `unwrap`. -/
def ChunkType.display (t : ChunkType) : Option (List Nat) :=
  utf8Decode t.bytes

/-! ### Chunk (src/chunk.rs) -/

inductive ChunkError where
  | Conversion
  | InvalidLength
  | InvalidCrc
  | MismatchCrc
  | ChunkType (e : ChunkTypeError)
deriving DecidableEq, Repr

structure Chunk where
  length : Nat
  chunk_type : ChunkType
  data : List Nat
  crc : Nat
deriving DecidableEq, Repr

/-- `Chunk::new`: `length = data.len() as u32` (the cast truncates modulo
`2^32`), `crc = CRC32(chunk_type.bytes() ++ data)`. -/
def Chunk.new (chunk_type : ChunkType) (data : List Nat) : Chunk :=
  { length := data.length % 2 ^ 32
    chunk_type := chunk_type
    data := data
    crc := crc32 (chunk_type.bytes ++ data) }

/-- `Chunk::data_as_string`: UTF-8 decoding of the data, `Conversion` error on
invalid UTF-8. -/
def Chunk.data_as_string (c : Chunk) : Except ChunkError (List Nat) :=
  match utf8Decode c.data with
  | some s => .ok s
  | none => .error .Conversion

/-- `Chunk::as_bytes`: big-endian length, type bytes, data, big-endian crc. -/
def Chunk.as_bytes (c : Chunk) : List Nat :=
  u32be c.length ++ c.chunk_type.bytes ++ c.data ++ u32be c.crc

/-- `impl TryFrom<&[u8]> for Chunk` (src/chunk.rs): consumes the buffer through
a byte iterator.  Each `take n` collects at most `n` bytes and a failing
`try_into::<[u8; 4]>` on a short window produces the corresponding error.
The data window `take(length)` silently collects fewer bytes when the buffer
is short.  The function also returns the bytes left in the iterator, so that
the number of consumed bytes is observable. -/
def Chunk.try_from_stream (v : List Nat) :
    Except ChunkError (Chunk × List Nat) :=
  match v with
  | l0 :: l1 :: l2 :: l3 :: r1 =>
    let length := u32beDecode [l0, l1, l2, l3]
    match r1 with
    | t0 :: t1 :: t2 :: t3 :: r2 =>
      match ChunkType.try_from t0 t1 t2 t3 with
      | .error e => .error (.ChunkType e)
      | .ok chunk_type =>
        let data := r2.take length
        let r3 := r2.drop length
        match r3 with
        | c0 :: c1 :: c2 :: c3 :: r4 =>
          let crc := u32beDecode [c0, c1, c2, c3]
          let chunk := Chunk.new chunk_type data
          if chunk.crc ≠ crc then .error .MismatchCrc
          else .ok (chunk, r4)
        | _ => .error .InvalidCrc
    | _ => .error (.ChunkType .InvalidLen)
  | _ => .error .InvalidLength

/-- `Chunk::try_from`, forgetting the final iterator state. -/
def Chunk.try_from (v : List Nat) : Except ChunkError Chunk :=
  (Chunk.try_from_stream v).map Prod.fst

/-! ### The second Chunk implementation (src/chunks.rs) -/

namespace Chunks

inductive IntoChunkError where
  | InvalidByteToString
  | InvalidLength
  | InvalidChunkType
  | InvalidCrc
  | MismatchCrc
deriving DecidableEq, Repr

structure Chunk where
  length : Nat
  chunk_type : ChunkType
  data : List Nat
  crc : Nat
deriving DecidableEq, Repr

/-- `Chunk::new` in src/chunks.rs (same computation as in src/chunk.rs). -/
def Chunk.new (chunk_type : ChunkType) (data : List Nat) : Chunk :=
  { length := data.length % 2 ^ 32
    chunk_type := chunk_type
    data := data
    crc := crc32 (chunk_type.bytes ++ data) }

/-- The window extraction used by src/chunks.rs:
`value.iter().enumerate().filter(|&(i,_)| (a..b).contains(&i)).map(|(_,e)| *e)`. -/
def sliceRange (a b : Nat) (v : List Nat) : List Nat :=
  (v.enum.filter fun p => decide (a ≤ p.1) && decide (p.1 < b)).map Prod.snd

/-- `impl TryFrom<&[u8]> for Chunk` (src/chunks.rs): index-filter based.
`none` models the panic of the `unwrap()` on the chunk-type window. -/
def Chunk.try_from (v : List Nat) : Option (Except IntoChunkError Chunk) :=
  match sliceRange 0 4 v with
  | [l0, l1, l2, l3] =>
    let length := u32beDecode [l0, l1, l2, l3]
    match sliceRange 4 8 v with
    | [t0, t1, t2, t3] =>
      match ChunkType.try_from t0 t1 t2 t3 with
      | .error _ => some (.error .InvalidChunkType)
      | .ok chunk_type =>
        let data := sliceRange 8 (8 + length) v
        match sliceRange (8 + length) (8 + 4 + length) v with
        | [c0, c1, c2, c3] =>
          let crc := u32beDecode [c0, c1, c2, c3]
          let chunk := Chunk.new chunk_type data
          if chunk.crc ≠ crc then some (.error .MismatchCrc)
          else some (.ok chunk)
        | _ => some (.error .InvalidCrc)
    | _ => none
  | _ => some (.error .InvalidLength)

end Chunks

/-- Field-preserving map between the two structurally identical Chunk
records of src/chunk.rs and src/chunks.rs. -/
def Chunk.toChunks (c : Chunk) : Chunks.Chunk :=
  { length := c.length
    chunk_type := c.chunk_type
    data := c.data
    crc := c.crc }

/-- The correspondence between the error tags of the two implementations. -/
def ChunkError.toChunks : ChunkError → Chunks.IntoChunkError
  | .Conversion => .InvalidByteToString
  | .InvalidLength => .InvalidLength
  | .InvalidCrc => .InvalidCrc
  | .MismatchCrc => .MismatchCrc
  | .ChunkType _ => .InvalidChunkType

/-- Transport of a full parse result of src/chunk.rs into the result type of
src/chunks.rs, preserving all four record fields and the error tag. -/
def chunkResultToChunks :
    Except ChunkError Chunk → Except Chunks.IntoChunkError Chunks.Chunk
  | .ok c => .ok c.toChunks
  | .error e => .error e.toChunks

/-- The set of Chunk values producible through `Chunk::new` and
`Chunk::try_from`: length mirrors the data size (and fits in a u32), the crc
is the checksum of type bytes and data, the type code consists of ASCII
letters, and the data consists of bytes. -/
def Chunk.WF (c : Chunk) : Prop :=
  c.length = c.data.length ∧ c.data.length < 2 ^ 32 ∧
    c.crc = crc32 (c.chunk_type.bytes ++ c.data) ∧
    c.chunk_type.bytes.all isAsciiLetter = true ∧
    (c.data.all fun b => decide (b < 256)) = true

instance (c : Chunk) : Decidable c.WF := by
  unfold Chunk.WF
  infer_instance

/-- Flip bit `k` of the byte at index `i` of a byte buffer. -/
def flipBit (v : List Nat) (i k : Nat) : List Nat :=
  v.set i (v.getD i 0 ^^^ 2 ^ k)

/-- The 42 ASCII bytes of "This is where your secret message will be!"
(the message used by the source tests). -/
def testMessage : List Nat :=
  [84, 104, 105, 115, 32, 105, 115, 32, 119, 104, 101, 114, 101, 32, 121, 111,
   117, 114, 32, 115, 101, 99, 114, 101, 116, 32, 109, 101, 115, 115, 97, 103,
   101, 32, 119, 105, 108, 108, 32, 98, 101, 33]

/-- The test buffer of the source tests:
big-endian 42, the type bytes of "RuSt", the message, big-endian 2882656334. -/
def testBuffer : List Nat :=
  u32be 42 ++ [82, 117, 83, 116] ++ testMessage ++ u32be 2882656334

/-! ## Basic facts about the big-endian encoding -/

theorem u32be_length (n : Nat) : (u32be n).length = 4 := rfl

theorem u32beDecode_u32be (n : Nat) (h : n < 2 ^ 32) :
    u32beDecode (u32be n) = n := by
  simp only [u32be, u32beDecode]
  omega

theorem u32beDecode_lt (b0 b1 b2 b3 : Nat) (h0 : b0 < 256) (h1 : b1 < 256)
    (h2 : b2 < 256) (h3 : b3 < 256) : u32beDecode [b0, b1, b2, b3] < 2 ^ 32 := by
  simp only [u32beDecode]
  omega

theorem u32be_mem_lt (n : Nat) : ∀ b ∈ u32be n, b < 256 := by
  intro b hb
  simp only [u32be, List.mem_cons, List.not_mem_nil, or_false] at hb
  rcases hb with h | h | h | h <;> subst h <;> omega

theorem u32beDecode_inj {a0 a1 a2 a3 b0 b1 b2 b3 : Nat}
    (ha0 : a0 < 256) (ha1 : a1 < 256) (ha2 : a2 < 256) (ha3 : a3 < 256)
    (hb0 : b0 < 256) (hb1 : b1 < 256) (hb2 : b2 < 256) (hb3 : b3 < 256)
    (h : u32beDecode [a0, a1, a2, a3] = u32beDecode [b0, b1, b2, b3]) :
    a0 = b0 ∧ a1 = b1 ∧ a2 = b2 ∧ a3 = b3 := by
  simp only [u32beDecode] at h
  omega

/-! ## Linearity of the CRC-32 state update over bitwise xor -/

theorem xor_mod_two (x y : Nat) : (x ^^^ y) % 2 = x % 2 ^^^ y % 2 := by
  rw [← Nat.and_one_is_mod, ← Nat.and_one_is_mod x, ← Nat.and_one_is_mod y,
    Nat.and_xor_distrib_right]

theorem xor_div_two (x y : Nat) : (x ^^^ y) / 2 = x / 2 ^^^ y / 2 := by
  apply Nat.eq_of_testBit_eq
  intro i
  simp only [Nat.testBit_div_two, Nat.testBit_xor]

theorem crcRound_eq (c : Nat) : crcRound c = c / 2 ^^^ c % 2 * CRC_POLY := by
  unfold crcRound
  rcases Nat.mod_two_eq_zero_or_one c with h | h <;> simp [h]

theorem xor_left_comm (a b c : Nat) : a ^^^ (b ^^^ c) = b ^^^ (a ^^^ c) := by
  rw [← Nat.xor_assoc, Nat.xor_comm a b, Nat.xor_assoc]

theorem crcRound_xor (x y : Nat) :
    crcRound (x ^^^ y) = crcRound x ^^^ crcRound y := by
  rw [crcRound_eq, crcRound_eq, crcRound_eq, xor_div_two, xor_mod_two]
  rcases Nat.mod_two_eq_zero_or_one x with hx | hx <;>
    rcases Nat.mod_two_eq_zero_or_one y with hy | hy <;>
      simp [hx, hy, Nat.xor_assoc, Nat.xor_comm, xor_left_comm,
        Nat.xor_cancel_left]

theorem crcRound_iterate_xor (k x y : Nat) :
    crcRound^[k] (x ^^^ y) = crcRound^[k] x ^^^ crcRound^[k] y := by
  induction k generalizing x y with
  | zero => rfl
  | succ k ih =>
    rw [Function.iterate_succ_apply, Function.iterate_succ_apply,
      Function.iterate_succ_apply, crcRound_xor, ih]

theorem crcUpdate_xor (c d b e : Nat) :
    crcUpdate (c ^^^ d) (b ^^^ e) = crcUpdate c b ^^^ crcUpdate d e := by
  unfold crcUpdate
  rw [← crcRound_iterate_xor]
  congr 1
  simp [Nat.xor_assoc, Nat.xor_comm, xor_left_comm]

theorem crcState_cons (s b : Nat) (l : List Nat) :
    crcState s (b :: l) = crcState (crcUpdate s b) l := rfl

theorem crcState_append (s : Nat) (l1 l2 : List Nat) :
    crcState s (l1 ++ l2) = crcState (crcState s l1) l2 := by
  simp [crcState, List.foldl_append]

theorem crcState_xor (m : List Nat) :
    ∀ e : List Nat, m.length = e.length → ∀ s t : Nat,
      crcState (s ^^^ t) (List.zipWith (· ^^^ ·) m e) =
        crcState s m ^^^ crcState t e := by
  induction m with
  | nil =>
    intro e he s t
    cases e with
    | nil => simp [crcState]
    | cons b e => simp at he
  | cons a m ih =>
    intro e he s t
    cases e with
    | nil => simp at he
    | cons b e =>
      simp only [List.zipWith_cons_cons, crcState_cons]
      rw [crcUpdate_xor]
      exact ih e (by simpa using he) _ _

/-! ## The CRC state never collapses a single-bit difference -/

theorem crcRound_zero : crcRound 0 = 0 := rfl

theorem crcRound_lt (c : Nat) (h : c < 2 ^ 32) : crcRound c < 2 ^ 32 := by
  unfold crcRound
  split
  · exact Nat.xor_lt_two_pow (by omega) (by norm_num [CRC_POLY])
  · omega

theorem crcRound_ne_zero (c : Nat) (h : c < 2 ^ 32) (h0 : c ≠ 0) :
    crcRound c ≠ 0 := by
  unfold crcRound
  split
  · intro hc
    have hdiv : c / 2 = CRC_POLY := by
      have h2 := congrArg (· ^^^ CRC_POLY) hc
      simpa [Nat.xor_assoc] using h2
    norm_num [CRC_POLY] at hdiv
    omega
  · rename_i hpar
    intro hc
    omega

theorem crcRound_iterate_ne_zero (k : Nat) :
    ∀ c : Nat, c < 2 ^ 32 → c ≠ 0 →
      crcRound^[k] c ≠ 0 ∧ crcRound^[k] c < 2 ^ 32 := by
  induction k with
  | zero => exact fun c h h0 => ⟨h0, h⟩
  | succ k ih =>
    intro c h h0
    rw [Function.iterate_succ_apply]
    exact ih _ (crcRound_lt _ h) (crcRound_ne_zero _ h h0)

theorem crcUpdate_zero (x : Nat) : crcUpdate x 0 = crcRound^[8] x := by
  simp [crcUpdate]

theorem crcState_replicate_ne_zero (r : Nat) :
    ∀ x : Nat, x < 2 ^ 32 → x ≠ 0 →
      crcState x (List.replicate r 0) ≠ 0 := by
  induction r with
  | zero => exact fun x _ h0 => h0
  | succ r ih =>
    intro x h h0
    rw [List.replicate_succ, crcState_cons, crcUpdate_zero]
    obtain ⟨h1, h2⟩ := crcRound_iterate_ne_zero 8 x h h0
    exact ih _ h2 h1

theorem crcState_errVec_ne_zero (i r k : Nat) (hk : k < 8) :
    crcState 0 (List.replicate i 0 ++ 2 ^ k :: List.replicate r 0) ≠ 0 := by
  have hz : crcState 0 (List.replicate i 0) = 0 := by
    induction i with
    | zero => rfl
    | succ i ih =>
      rw [List.replicate_succ, crcState_cons, crcUpdate_zero,
        Function.iterate_fixed crcRound_zero]
      exact ih
  rw [crcState_append, hz, crcState_cons]
  have h7 : (2 : Nat) ^ k ≤ 2 ^ 7 :=
    Nat.pow_le_pow_right (by norm_num) (by omega)
  have hlt : (2 : Nat) ^ k < 2 ^ 32 := lt_of_le_of_lt h7 (by norm_num)
  have hne : (2 : Nat) ^ k ≠ 0 := pow_ne_zero k (by norm_num)
  have hupd : crcUpdate 0 (2 ^ k) = crcRound^[8] (2 ^ k) := by
    simp [crcUpdate]
  rw [hupd]
  obtain ⟨h1, h2⟩ := crcRound_iterate_ne_zero 8 (2 ^ k) hlt hne
  exact crcState_replicate_ne_zero r _ h2 h1

/-! ## The checksum is bounded by 2^32 -/

theorem crcRound_iterate_lt (n : Nat) :
    ∀ x : Nat, x < 2 ^ 32 → crcRound^[n] x < 2 ^ 32 := by
  induction n with
  | zero => exact fun x h => h
  | succ n ih =>
    intro x h
    rw [Function.iterate_succ_apply]
    exact ih _ (crcRound_lt _ h)

theorem crcUpdate_lt (c b : Nat) (hc : c < 2 ^ 32) (hb : b < 2 ^ 32) :
    crcUpdate c b < 2 ^ 32 :=
  crcRound_iterate_lt 8 _ (Nat.xor_lt_two_pow hc hb)

theorem crcState_lt (l : List Nat) :
    ∀ s : Nat, s < 2 ^ 32 → (∀ b ∈ l, b < 256) → crcState s l < 2 ^ 32 := by
  induction l with
  | nil => exact fun s hs _ => hs
  | cons b l ih =>
    intro s hs hb
    rw [crcState_cons]
    have hb2 : b < 2 ^ 32 :=
      lt_trans (hb b (List.mem_cons_self b l)) (by norm_num)
    exact ih _ (crcUpdate_lt _ _ hs hb2) fun x hx =>
      hb x (List.mem_cons_of_mem b hx)

theorem crc32_lt (l : List Nat) (hb : ∀ b ∈ l, b < 256) : crc32 l < 2 ^ 32 := by
  unfold crc32
  exact Nat.xor_lt_two_pow (crcState_lt l _ (by norm_num) hb) (by norm_num)

/-! ## Single-bit flips always change the checksum -/

theorem zipWith_xor_replicate_zero (l : List Nat) :
    List.zipWith (· ^^^ ·) l (List.replicate l.length 0) = l := by
  induction l with
  | nil => rfl
  | cons a l ih => simp [List.replicate_succ, ih]

theorem flipBit_eq_zipWith (v : List Nat) :
    ∀ i : Nat, i < v.length → ∀ k : Nat,
      flipBit v i k =
        List.zipWith (· ^^^ ·) v
          (List.replicate i 0 ++ 2 ^ k :: List.replicate (v.length - i - 1) 0) := by
  induction v with
  | nil =>
    intro i hi
    simp at hi
  | cons a v ih =>
    intro i hi k
    cases i with
    | zero =>
      have hL : flipBit (a :: v) 0 k = (a ^^^ 2 ^ k) :: v := rfl
      have hR : (a :: v).length - 0 - 1 = v.length := by simp
      rw [hL, hR]
      simp [zipWith_xor_replicate_zero]
    | succ i =>
      have hi' : i < v.length := by simpa using hi
      have hL : flipBit (a :: v) (i + 1) k = a :: flipBit v i k := rfl
      have hR : (a :: v).length - (i + 1) - 1 = v.length - i - 1 := by simp
      rw [hL, hR, List.replicate_succ, List.cons_append,
        List.zipWith_cons_cons, Nat.xor_zero, ih i hi' k]

theorem flipBit_length (v : List Nat) (i k : Nat) :
    (flipBit v i k).length = v.length := by
  simp [flipBit]

theorem crc32_flipBit_ne (v : List Nat) (i k : Nat) (hi : i < v.length)
    (hk : k < 8) : crc32 (flipBit v i k) ≠ crc32 v := by
  intro hEq
  have hlen :
      v.length =
        (List.replicate i 0 ++ 2 ^ k :: List.replicate (v.length - i - 1) 0).length := by
    simp
    omega
  have hsplit := crcState_xor v _ hlen 0xFFFFFFFF 0
  rw [Nat.xor_zero] at hsplit
  have h1 : crc32 (flipBit v i k) =
      (crcState 0xFFFFFFFF v ^^^
        crcState 0 (List.replicate i 0 ++ 2 ^ k :: List.replicate (v.length - i - 1) 0)) ^^^
        0xFFFFFFFF := by
    unfold crc32
    rw [flipBit_eq_zipWith v i hi k, hsplit]
  rw [h1] at hEq
  unfold crc32 at hEq
  have h2 : crcState 0xFFFFFFFF v ^^^
      crcState 0 (List.replicate i 0 ++ 2 ^ k :: List.replicate (v.length - i - 1) 0) =
      crcState 0xFFFFFFFF v := by
    have h := congrArg (· ^^^ (0xFFFFFFFF : Nat)) hEq
    simpa only [Nat.xor_cancel_right] using h
  have h3 : crcState 0 (List.replicate i 0 ++ 2 ^ k :: List.replicate (v.length - i - 1) 0) = 0 := by
    have h := congrArg (fun z => crcState 0xFFFFFFFF v ^^^ z) h2
    simpa only [Nat.xor_cancel_left, Nat.xor_self] using h
  exact crcState_errVec_ne_zero i (v.length - i - 1) k hk h3

/-! ## ChunkType construction -/

theorem ChunkType.try_from_of_letters (t0 t1 t2 t3 : Nat)
    (h0 : isAsciiLetter t0 = true) (h1 : isAsciiLetter t1 = true)
    (h2 : isAsciiLetter t2 = true) (h3 : isAsciiLetter t3 = true) :
    ChunkType.try_from t0 t1 t2 t3 = .ok ⟨t0, t1, t2, t3⟩ := by
  unfold isAsciiLetter at h0 h1 h2 h3
  simp [ChunkType.try_from, List.filter, h0, h1, h2, h3]

theorem ChunkType.try_from_ok {t0 t1 t2 t3 : Nat} {t : ChunkType}
    (h : ChunkType.try_from t0 t1 t2 t3 = .ok t) :
    t = ⟨t0, t1, t2, t3⟩ ∧ isAsciiLetter t0 = true ∧ isAsciiLetter t1 = true ∧
      isAsciiLetter t2 = true ∧ isAsciiLetter t3 = true := by
  unfold ChunkType.try_from at h
  split at h
  · rename_i hlen
    have hall :
        ∀ x ∈ [t0, t1, t2, t3], (isAsciiLower x || isAsciiUpper x) = true :=
      List.filter_length_eq_length.mp (by simpa using hlen)
    refine ⟨by injection h with h2; exact h2.symm, ?_, ?_, ?_, ?_⟩ <;>
      simp only [isAsciiLetter]
    · exact hall t0 (by simp)
    · exact hall t1 (by simp)
    · exact hall t2 (by simp)
    · exact hall t3 (by simp)
  · exact absurd h (by simp)

theorem utf8Decode_ascii (l : List Nat) (h : ∀ b ∈ l, b < 128) :
    utf8Decode l = some l := by
  induction l with
  | nil => rfl
  | cons b rest ih =>
    have hb : b < 0x80 := h b (List.mem_cons_self _ _)
    have step : utf8Decode (b :: rest) = (utf8Decode rest).map (b :: ·) := by
      conv_lhs => rw [utf8Decode]
      simp only [if_pos hb]
    rw [step, ih fun x hx => h x (List.mem_cons_of_mem _ hx)]
    rfl

/-! ## Reduction of Chunk::try_from on a framed buffer -/

theorem Chunk.try_from_stream_cons8 (l0 l1 l2 l3 t0 t1 t2 t3 : Nat)
    (rest : List Nat) :
    Chunk.try_from_stream
        (l0 :: l1 :: l2 :: l3 :: t0 :: t1 :: t2 :: t3 :: rest) =
      match ChunkType.try_from t0 t1 t2 t3 with
      | .error e => .error (.ChunkType e)
      | .ok chunk_type =>
        match rest.drop (u32beDecode [l0, l1, l2, l3]) with
        | c0 :: c1 :: c2 :: c3 :: r4 =>
          if (Chunk.new chunk_type
                (rest.take (u32beDecode [l0, l1, l2, l3]))).crc ≠
              u32beDecode [c0, c1, c2, c3] then
            .error .MismatchCrc
          else
            .ok (Chunk.new chunk_type
                  (rest.take (u32beDecode [l0, l1, l2, l3])), r4)
        | _ => .error .InvalidCrc := rfl

theorem Chunk.try_from_framed (l0 l1 l2 l3 t0 t1 t2 t3 : Nat) (d : List Nat)
    (c0 c1 c2 c3 : Nat) (r : List Nat)
    (hd : d.length = u32beDecode [l0, l1, l2, l3])
    (h0 : isAsciiLetter t0 = true) (h1 : isAsciiLetter t1 = true)
    (h2 : isAsciiLetter t2 = true) (h3 : isAsciiLetter t3 = true) :
    Chunk.try_from
        (l0 :: l1 :: l2 :: l3 :: t0 :: t1 :: t2 :: t3 ::
          (d ++ c0 :: c1 :: c2 :: c3 :: r)) =
      if crc32 ([t0, t1, t2, t3] ++ d) ≠ u32beDecode [c0, c1, c2, c3] then
        .error .MismatchCrc
      else .ok (Chunk.new ⟨t0, t1, t2, t3⟩ d) := by
  unfold Chunk.try_from
  rw [Chunk.try_from_stream_cons8,
    ChunkType.try_from_of_letters t0 t1 t2 t3 h0 h1 h2 h3,
    List.drop_left' hd, List.take_left' hd]
  by_cases hcrc : crc32 (t0 :: t1 :: t2 :: t3 :: d) = u32beDecode [c0, c1, c2, c3] <;>
    simp [Chunk.new, ChunkType.bytes, hcrc, Except.map]

/-! ## What a successful parse guarantees -/

theorem Chunk.try_from_stream_ok {v : List Nat} {c : Chunk} {rest : List Nat}
    (hb : ∀ b ∈ v, b < 256)
    (h : Chunk.try_from_stream v = .ok (c, rest)) :
    c.WF ∧ v.length = 12 + c.length + rest.length := by
  rcases v with _ | ⟨l0, _ | ⟨l1, _ | ⟨l2, _ | ⟨l3, _ | ⟨t0, _ | ⟨t1, _ | ⟨t2, _ | ⟨t3, r2⟩⟩⟩⟩⟩⟩⟩⟩ <;>
    try exact absurd h (fun hc => Except.noConfusion hc)
  rw [Chunk.try_from_stream_cons8] at h
  split at h
  · exact absurd h (fun hc => Except.noConfusion hc)
  rename_i ct hct
  split at h
  case _ c0 c1 c2 c3 r4 hdrop =>
    split at h
    · exact absurd h (fun hc => Except.noConfusion hc)
    rename_i hcrc
    injection h with h
    injection h with hc hrest
    subst hc
    subst hrest
    obtain ⟨hteq, hl0, hl1, hl2, hl3⟩ := ChunkType.try_from_ok hct
    subst hteq
    have hb0 : l0 < 256 := hb l0 (by simp)
    have hb1 : l1 < 256 := hb l1 (by simp)
    have hb2 : l2 < 256 := hb l2 (by simp)
    have hb3 : l3 < 256 := hb l3 (by simp)
    have hL : u32beDecode [l0, l1, l2, l3] < 2 ^ 32 :=
      u32beDecode_lt _ _ _ _ hb0 hb1 hb2 hb3
    have hdl : (r2.drop (u32beDecode [l0, l1, l2, l3])).length =
        4 + r4.length := by
      rw [hdrop]
      simp only [List.length_cons]
      omega
    rw [List.length_drop] at hdl
    have hr2 : u32beDecode [l0, l1, l2, l3] + 4 + r4.length = r2.length := by
      omega
    have htk : (r2.take (u32beDecode [l0, l1, l2, l3])).length =
        u32beDecode [l0, l1, l2, l3] := by
      rw [List.length_take]
      omega
    refine ⟨⟨?_, ?_, ?_, ?_, ?_⟩, ?_⟩
    · simp [Chunk.new, htk]
      omega
    · simp [Chunk.new, htk]
      omega
    · simp [Chunk.new]
    · simp [Chunk.new, ChunkType.bytes, hl0, hl1, hl2, hl3]
    · simp only [Chunk.new, List.all_eq_true, decide_eq_true_eq]
      intro x hx
      exact hb x (by
        have hx2 : x ∈ r2 := List.take_subset _ _ hx
        simp [hx2])
    · simp only [Chunk.new, List.length_cons, htk]
      omega
  all_goals exact absurd h (fun hc => Except.noConfusion hc)

theorem Chunk.try_from_ok_WF {v : List Nat} {c : Chunk}
    (hb : ∀ b ∈ v, b < 256) (h : Chunk.try_from v = .ok c) : c.WF := by
  unfold Chunk.try_from at h
  cases hs : Chunk.try_from_stream v with
  | error e => rw [hs] at h; exact absurd h (fun hc => Except.noConfusion hc)
  | ok p =>
    rw [hs] at h
    obtain ⟨c', rest⟩ := p
    have hcc : c' = c := by
      simpa [Except.map] using h
    subst hcc
    exact (Chunk.try_from_stream_ok hb hs).1

/-! ## The index-filter windows of src/chunks.rs are take/drop windows -/

theorem enumFrom_filter_map (v : List Nat) :
    ∀ n a b : Nat,
      ((List.enumFrom n v).filter fun p =>
          decide (a ≤ p.1) && decide (p.1 < b)).map Prod.snd =
        (v.drop (a - n)).take (b - max a n) := by
  induction v with
  | nil =>
    intro n a b
    simp
  | cons x v ih =>
    intro n a b
    rw [List.enumFrom_cons, List.filter_cons]
    by_cases ha : a ≤ n
    · by_cases hbn : n < b
      · rw [if_pos (by simp [ha, hbn])]
        have h1 : a - n = 0 := by omega
        have h2 : a - (n + 1) = 0 := by omega
        have h3 : max a n = n := by omega
        have h4 : max a (n + 1) = n + 1 := by omega
        have h5 : b - n = (b - (n + 1)) + 1 := by omega
        rw [List.map_cons, ih (n + 1) a b, h1, h2, h3, h4, h5,
          List.drop_zero, List.drop_zero, List.take_succ_cons]
      · rw [if_neg (by simp [hbn])]
        have h1 : b - max a n = 0 := by omega
        have h2 : b - max a (n + 1) = 0 := by omega
        rw [ih (n + 1) a b, h1, h2, List.take_zero, List.take_zero]
    · rw [if_neg (by simp [ha])]
      have h1 : a - n = (a - (n + 1)) + 1 := by omega
      have h2 : max a n = a := by omega
      have h3 : max a (n + 1) = a := by omega
      rw [ih (n + 1) a b, h1, h2, h3, List.drop_succ_cons]

theorem sliceRange_eq (a b : Nat) (v : List Nat) :
    Chunks.sliceRange a b v = (v.drop a).take (b - a) := by
  unfold Chunks.sliceRange
  rw [List.enum_eq_enumFrom, enumFrom_filter_map]
  simp

/-! ## Auxiliary facts about the validity predicate -/

theorem isAsciiLetter_lt (b : Nat) (h : isAsciiLetter b = true) : b < 128 := by
  unfold isAsciiLetter isAsciiLower isAsciiUpper at h
  simp only [Bool.or_eq_true, Bool.and_eq_true, decide_eq_true_eq] at h
  omega

theorem reserved_bit_iff (t : ChunkType) :
    t.is_reserved_bit_valid = true ↔ t.c2.testBit 5 = false := by
  unfold ChunkType.is_reserved_bit_valid
  rw [show BIT_OF_INTEREST = 2 ^ 5 from rfl, Nat.and_two_pow]
  cases h : t.c2.testBit 5 <;> simp [BIT_SHIFT_NUM]

theorem chunk_type_letters_iff (t : ChunkType) :
    ((t.bytes.filter fun x => isAsciiLower x || isAsciiUpper x).length = 4) ↔
      t.bytes.all isAsciiLetter = true := by
  rw [show (4 : Nat) = t.bytes.length from rfl, List.filter_length_eq_length,
    List.all_eq_true]
  unfold isAsciiLetter
  exact Iff.rfl

/-! ## The claims -/

/-- C5: `ChunkType::is_valid` returns true iff all four bytes are ASCII
letters and the reserved bit (bit 0x20 of byte index 2) is clear; the type
built from "RuSt" is valid, the one built from "Rust" is not. -/
theorem chunk_type_is_valid_iff :
    (∀ t : ChunkType,
        t.is_valid = true ↔
          (t.bytes.all isAsciiLetter = true ∧ t.c2.testBit 5 = false)) ∧
      (∃ t : ChunkType,
        ChunkType.from_str [82, 117, 83, 116] = .ok t ∧ t.is_valid = true) ∧
      (∃ t : ChunkType,
        ChunkType.from_str [82, 117, 115, 116] = .ok t ∧ t.is_valid = false) := by
  refine ⟨fun t => ?_, ⟨⟨82, 117, 83, 116⟩, by decide⟩,
    ⟨⟨82, 117, 115, 116⟩, by decide⟩⟩
  unfold ChunkType.is_valid
  rw [Bool.and_eq_true, beq_iff_eq, chunk_type_letters_iff, reserved_bit_iff]

/-- C5 witness: the characterization instantiated at the "RuSt" type code. -/
theorem chunk_type_is_valid_iff_witness :
    (ChunkType.mk 82 117 83 116).is_valid = true :=
  (chunk_type_is_valid_iff.1 ⟨82, 117, 83, 116⟩).mpr (by decide)

/-- C6 counterexample: `ChunkType::try_from` does reject four bytes that are
not ASCII letters ("0000"), contradicting the claim that construction from
four bytes always succeeds. -/
theorem chunk_type_construction_rejects :
    ChunkType.try_from 48 48 48 48 = .error .InvalidFormat ∧
      ∀ t : ChunkType, ChunkType.try_from 48 48 48 48 ≠ .ok t := by
  refine ⟨by decide, fun t h => ?_⟩
  rw [show ChunkType.try_from 48 48 48 48 = .error .InvalidFormat from by decide] at h
  exact Except.noConfusion h

/-- C6 (amended): construction of a ChunkType from four bytes succeeds,
returning the bytes unchanged, exactly when all four bytes are ASCII letters;
otherwise it fails with `InvalidFormat`. -/
theorem chunk_type_construction (b0 b1 b2 b3 : Nat) :
    (([b0, b1, b2, b3].all isAsciiLetter = true) →
        ChunkType.try_from b0 b1 b2 b3 = .ok ⟨b0, b1, b2, b3⟩) ∧
      (([b0, b1, b2, b3].all isAsciiLetter ≠ true) →
        ChunkType.try_from b0 b1 b2 b3 = .error .InvalidFormat) := by
  constructor
  · intro h
    simp only [List.all_eq_true, List.mem_cons, forall_eq_or_imp,
      List.not_mem_nil, false_implies, forall_eq, and_true] at h
    exact ChunkType.try_from_of_letters b0 b1 b2 b3 h.1 h.2.1 h.2.2.1 h.2.2.2.1
  · intro h
    unfold ChunkType.try_from
    rw [if_neg]
    intro hc
    exact h ((chunk_type_letters_iff ⟨b0, b1, b2, b3⟩).mp hc)

/-- C6 witness: amended claim instantiated, both on a letter tag and on a
non-letter tag. -/
theorem chunk_type_construction_witness :
    ChunkType.try_from 82 117 83 116 = .ok ⟨82, 117, 83, 116⟩ ∧
      ChunkType.try_from 48 48 48 48 = .error .InvalidFormat :=
  ⟨(chunk_type_construction 82 117 83 116).1 (by decide),
    (chunk_type_construction 48 48 48 48).2 (by decide)⟩

/-- C10: every ChunkType obtained from `try_from` or `from_str` has four
ASCII-letter bytes, so the UTF-8 decoding in its Display implementation never
fails and renders exactly the four original bytes. -/
theorem chunk_type_display_safe :
    (∀ b0 b1 b2 b3 : Nat, ∀ t : ChunkType,
        ChunkType.try_from b0 b1 b2 b3 = .ok t →
          t.bytes.all isAsciiLetter = true ∧
            t.display = some t.bytes ∧ t.bytes.length = 4) ∧
      (∀ s : List Nat, ∀ t : ChunkType,
        ChunkType.from_str s = .ok t →
          t.bytes.all isAsciiLetter = true ∧
            t.display = some t.bytes ∧ t.bytes.length = 4) := by
  have main : ∀ b0 b1 b2 b3 : Nat, ∀ t : ChunkType,
      ChunkType.try_from b0 b1 b2 b3 = .ok t →
        t.bytes.all isAsciiLetter = true ∧
          t.display = some t.bytes ∧ t.bytes.length = 4 := by
    intro b0 b1 b2 b3 t h
    obtain ⟨ht, h0, h1, h2, h3⟩ := ChunkType.try_from_ok h
    subst ht
    have hall : (ChunkType.bytes ⟨b0, b1, b2, b3⟩).all isAsciiLetter = true := by
      simp [ChunkType.bytes, h0, h1, h2, h3]
    refine ⟨hall, ?_, rfl⟩
    unfold ChunkType.display
    rw [utf8Decode_ascii]
    intro x hx
    simp only [ChunkType.bytes, List.mem_cons, List.not_mem_nil, or_false] at hx
    rcases hx with h | h | h | h <;> subst h
    · exact isAsciiLetter_lt _ h0
    · exact isAsciiLetter_lt _ h1
    · exact isAsciiLetter_lt _ h2
    · exact isAsciiLetter_lt _ h3
  refine ⟨main, fun s t h => ?_⟩
  unfold ChunkType.from_str at h
  split at h
  · exact main _ _ _ _ t h
  · exact absurd h (fun hc => Except.noConfusion hc)

/-- C10 witness: the safety property instantiated at the "RuSt" bytes. -/
theorem chunk_type_display_safe_witness :
    (ChunkType.mk 82 117 83 116).display =
      some (ChunkType.bytes ⟨82, 117, 83, 116⟩) :=
  (chunk_type_display_safe.1 82 117 83 116 ⟨82, 117, 83, 116⟩ (by decide)).2.1

/-- C8: parsing the concrete test buffer (big-endian 42, "RuSt", the 42-byte
secret message, big-endian 2882656334) succeeds, and the resulting record has
length 42, the message as its text, and crc 2882656334. -/
theorem concrete_scenario :
    Chunk.try_from testBuffer = .ok (Chunk.new ⟨82, 117, 83, 116⟩ testMessage) ∧
      (Chunk.new ⟨82, 117, 83, 116⟩ testMessage).length = 42 ∧
      (Chunk.new ⟨82, 117, 83, 116⟩ testMessage).data_as_string =
        .ok testMessage ∧
      (Chunk.new ⟨82, 117, 83, 116⟩ testMessage).crc = 2882656334 :=
  ⟨by decide, by decide, by decide, by decide⟩

/-- C2 counterexample: a buffer declaring 5 data bytes but providing only 2
makes `Chunk::try_from` fail with `InvalidCrc`, not `InvalidLength` as the
claim states. -/
theorem truncated_data_not_invalid_length :
    Chunk.try_from [0, 0, 0, 5, 82, 117, 83, 116, 1, 2] = .error .InvalidCrc ∧
      Chunk.try_from [0, 0, 0, 5, 82, 117, 83, 116, 1, 2] ≠
        .error .InvalidLength := by
  decide

/-- C2 (amended): when fewer bytes remain than the declared length demands
(after the length and a valid type have been read), the data window is cut
short, the checksum read finds no bytes, and `Chunk::try_from` fails with
`InvalidCrc`. -/
theorem truncated_data_error (l0 l1 l2 l3 t0 t1 t2 t3 : Nat) (rest : List Nat)
    (ht : ([t0, t1, t2, t3].all isAsciiLetter) = true)
    (hshort : rest.length < u32beDecode [l0, l1, l2, l3]) :
    Chunk.try_from (l0 :: l1 :: l2 :: l3 :: t0 :: t1 :: t2 :: t3 :: rest) =
      .error .InvalidCrc := by
  simp only [List.all_eq_true, List.mem_cons, forall_eq_or_imp,
    List.not_mem_nil, false_implies, forall_eq, and_true] at ht
  unfold Chunk.try_from
  rw [Chunk.try_from_stream_cons8,
    ChunkType.try_from_of_letters t0 t1 t2 t3 ht.1 ht.2.1 ht.2.2.1 ht.2.2.2.1,
    List.drop_eq_nil_of_le (le_of_lt hshort)]
  rfl

/-- C2 witness: the amended claim instantiated at the counterexample buffer. -/
theorem truncated_data_error_witness :
    Chunk.try_from (0 :: 0 :: 0 :: 5 :: 82 :: 117 :: 83 :: 116 :: [1, 2]) =
      .error .InvalidCrc :=
  truncated_data_error 0 0 0 5 82 117 83 116 [1, 2] (by decide) (by decide)

/-- C3 counterexample: a record with empty data serializes to 12 bytes, not
8 + length = 8 bytes as the claim states. -/
theorem serialized_size_not_eight_plus :
    (Chunk.new ⟨82, 117, 83, 116⟩ []).as_bytes.length ≠
      8 + (Chunk.new ⟨82, 117, 83, 116⟩ []).length := by
  decide

/-- C3 (amended): serialization emits the big-endian length, the type bytes,
the data and the big-endian checksum, for a total of 12 + length bytes; a
successful parse likewise consumes exactly 12 + length bytes. -/
theorem serialized_layout_size :
    (∀ c : Chunk,
        c.as_bytes =
          u32be c.length ++ c.chunk_type.bytes ++ c.data ++ u32be c.crc) ∧
      (∀ c : Chunk, c.WF → c.as_bytes.length = 12 + c.length) ∧
      (∀ v : List Nat, (∀ b ∈ v, b < 256) → ∀ c : Chunk, ∀ rest : List Nat,
        Chunk.try_from_stream v = .ok (c, rest) →
          v.length - rest.length = 12 + c.length) := by
  refine ⟨fun c => rfl, fun c hwf => ?_, fun v hb c rest h => ?_⟩
  · obtain ⟨hlen, -, -, -, -⟩ := hwf
    simp [Chunk.as_bytes, u32be, ChunkType.bytes, hlen]
    omega
  · have := (Chunk.try_from_stream_ok hb h).2
    omega

/-- C3 witness: layout and size instantiated at a concrete three-byte record,
and consumed-byte count instantiated at the concrete parse of its bytes. -/
theorem serialized_layout_size_witness :
    (Chunk.new ⟨82, 117, 83, 116⟩ [1, 2, 3]).as_bytes.length =
      12 + (Chunk.new ⟨82, 117, 83, 116⟩ [1, 2, 3]).length :=
  serialized_layout_size.2.1 (Chunk.new ⟨82, 117, 83, 116⟩ [1, 2, 3])
    (by decide)

/-- C7 counterexample: for data of size 2^32 the `as u32` cast wraps and the
stored length is 0, so the invariant "length equals the size of the data"
fails for data of that size, against the claim's "any size". -/
theorem record_invariant_large_data :
    (Chunk.new ⟨82, 117, 83, 116⟩ (List.replicate (2 ^ 32) 0)).length ≠
      (List.replicate (2 ^ 32) 0).length := by
  intro hEq
  have hproj : ∀ (t : ChunkType) (dd : List Nat),
      (Chunk.new t dd).length = dd.length % 2 ^ 32 := fun t dd => rfl
  rw [hproj, List.length_replicate] at hEq
  norm_num at hEq

/-- C7 (amended): every record obtained from `Chunk::new` on data of fewer
than 2^32 bytes, or from a successful `Chunk::try_from` on a byte buffer,
has its length field equal to the size of its data and its crc field equal to
CRC-32/ISO-HDLC over type bytes ++ data. -/
theorem record_invariant :
    (∀ t : ChunkType, ∀ d : List Nat, d.length < 2 ^ 32 →
        (Chunk.new t d).length = d.length ∧
          (Chunk.new t d).crc = crc32 (t.bytes ++ d)) ∧
      (∀ v : List Nat, (∀ b ∈ v, b < 256) → ∀ c : Chunk,
        Chunk.try_from v = .ok c →
          c.length = c.data.length ∧
            c.crc = crc32 (c.chunk_type.bytes ++ c.data)) := by
  refine ⟨fun t d hlen => ⟨?_, rfl⟩, fun v hb c h => ?_⟩
  · show d.length % 2 ^ 32 = d.length
    exact Nat.mod_eq_of_lt hlen
  · obtain ⟨h1, -, h2, -, -⟩ := Chunk.try_from_ok_WF hb h
    exact ⟨h1, h2⟩

/-- Parsing a buffer that frames `d` with an encoded length `n = d.length`
and an encoded checksum `c` reduces to the checksum comparison. -/
theorem Chunk.try_from_encoded (n t0 t1 t2 t3 : Nat) (d : List Nat) (c : Nat)
    (hn : n < 2 ^ 32) (hd : d.length = n) (hc : c < 2 ^ 32)
    (h0 : isAsciiLetter t0 = true) (h1 : isAsciiLetter t1 = true)
    (h2 : isAsciiLetter t2 = true) (h3 : isAsciiLetter t3 = true) :
    Chunk.try_from (u32be n ++ t0 :: t1 :: t2 :: t3 :: (d ++ u32be c)) =
      if crc32 ([t0, t1, t2, t3] ++ d) ≠ c then .error .MismatchCrc
      else .ok (Chunk.new ⟨t0, t1, t2, t3⟩ d) := by
  have hdec : u32beDecode [n / 2 ^ 24 % 256, n / 2 ^ 16 % 256,
      n / 2 ^ 8 % 256, n % 256] = n := u32beDecode_u32be n hn
  have hcdec : u32beDecode [c / 2 ^ 24 % 256, c / 2 ^ 16 % 256,
      c / 2 ^ 8 % 256, c % 256] = c := u32beDecode_u32be c hc
  have hframe := Chunk.try_from_framed (n / 2 ^ 24 % 256) (n / 2 ^ 16 % 256)
    (n / 2 ^ 8 % 256) (n % 256) t0 t1 t2 t3 d (c / 2 ^ 24 % 256)
    (c / 2 ^ 16 % 256) (c / 2 ^ 8 % 256) (c % 256) []
    (by rw [hdec]; exact hd) h0 h1 h2 h3
  rw [hcdec] at hframe
  exact hframe

/-- C1 counterexample: for the "RuSt" type and 2^32 zero data bytes the
round trip fails: `data.len() as u32` wraps to 0, the parser reads an empty
data window, and the checksum comparison fails with `MismatchCrc` instead of
returning the original record. -/
theorem chunk_roundtrip_large_data_fails :
    Chunk.try_from
        ((Chunk.new ⟨82, 117, 83, 116⟩ (List.replicate (2 ^ 32) 0)).as_bytes) =
      .error .MismatchCrc := by
  have habytes : ∀ (t : ChunkType) (dd : List Nat),
      (Chunk.new t dd).as_bytes =
        u32be (dd.length % 2 ^ 32) ++ t.bytes ++ dd ++
          u32be (crc32 (t.bytes ++ dd)) := fun t dd => rfl
  rw [habytes, List.length_replicate,
    show (2 ^ 32 : Nat) % 2 ^ 32 = 0 from by norm_num]
  generalize crc32 (ChunkType.bytes ⟨82, 117, 83, 116⟩ ++
    List.replicate (2 ^ 32) 0) = C
  rw [show List.replicate (2 ^ 32) (0 : Nat) =
      0 :: 0 :: 0 :: 0 :: List.replicate (2 ^ 32 - 4) 0 from by
    rw [show (2 ^ 32 : Nat) = 4 + (2 ^ 32 - 4) from by norm_num,
      List.replicate_add]
    rfl]
  rw [show (u32be 0 : List Nat) = [0, 0, 0, 0] from rfl,
    show ChunkType.bytes ⟨82, 117, 83, 116⟩ = [82, 117, 83, 116] from rfl]
  simp only [List.cons_append, List.nil_append]
  unfold Chunk.try_from
  rw [Chunk.try_from_stream_cons8,
    ChunkType.try_from_of_letters 82 117 83 116 (by decide) (by decide)
      (by decide) (by decide)]
  rw [show u32beDecode [0, 0, 0, 0] = 0 from rfl, List.drop_zero,
    List.take_zero]
  show Except.map Prod.fst
      (if (Chunk.new ⟨82, 117, 83, 116⟩ ([] : List Nat)).crc ≠
          u32beDecode [0, 0, 0, 0]
        then (.error .MismatchCrc : Except ChunkError (Chunk × List Nat))
        else .ok (Chunk.new ⟨82, 117, 83, 116⟩ [],
          List.replicate (2 ^ 32 - 4) 0 ++ u32be C)) =
    .error .MismatchCrc
  rw [if_pos (by decide)]
  rfl

/-- C1 (amended): for every constructible ChunkType (four ASCII-letter
bytes) and every byte sequence of fewer than 2^32 bytes, parsing the
serialization of `Chunk::new t d` succeeds and returns a record equal to
the original in all four fields. -/
theorem chunk_roundtrip (t : ChunkType) (d : List Nat)
    (ht : t.bytes.all isAsciiLetter = true)
    (hd : ∀ b ∈ d, b < 256) (hlen : d.length < 2 ^ 32) :
    Chunk.try_from (Chunk.new t d).as_bytes = .ok (Chunk.new t d) := by
  obtain ⟨t0, t1, t2, t3⟩ := t
  simp only [ChunkType.bytes, List.all_eq_true, List.mem_cons,
    forall_eq_or_imp, List.not_mem_nil, false_implies, forall_eq,
    and_true] at ht
  obtain ⟨h0, h1, h2, h3, -⟩ := ht
  have hc : crc32 ([t0, t1, t2, t3] ++ d) < 2 ^ 32 := by
    apply crc32_lt
    intro b hb
    rcases List.mem_append.mp hb with h | h
    · simp only [List.mem_cons, List.not_mem_nil, or_false] at h
      rcases h with h | h | h | h <;> subst h
      · exact lt_trans (isAsciiLetter_lt _ h0) (by norm_num)
      · exact lt_trans (isAsciiLetter_lt _ h1) (by norm_num)
      · exact lt_trans (isAsciiLetter_lt _ h2) (by norm_num)
      · exact lt_trans (isAsciiLetter_lt _ h3) (by norm_num)
    · exact hd b h
  have hproj : (Chunk.new ⟨t0, t1, t2, t3⟩ d).length = d.length % 2 ^ 32 := rfl
  have hlen2 : (Chunk.new ⟨t0, t1, t2, t3⟩ d).length = d.length := by
    rw [hproj]
    exact Nat.mod_eq_of_lt hlen
  show Chunk.try_from
      (u32be ((Chunk.new ⟨t0, t1, t2, t3⟩ d).length) ++
        t0 :: t1 :: t2 :: t3 :: (d ++ u32be (crc32 ([t0, t1, t2, t3] ++ d)))) =
    .ok (Chunk.new ⟨t0, t1, t2, t3⟩ d)
  rw [hlen2, Chunk.try_from_encoded d.length t0 t1 t2 t3 d _ hlen rfl hc
    h0 h1 h2 h3]
  rw [if_neg (by simp)]

/-- C1 witness: round trip instantiated at the "RuSt" type and the test
message. -/
theorem chunk_roundtrip_witness :
    Chunk.try_from (Chunk.new ⟨82, 117, 83, 116⟩ testMessage).as_bytes =
      .ok (Chunk.new ⟨82, 117, 83, 116⟩ testMessage) :=
  chunk_roundtrip ⟨82, 117, 83, 116⟩ testMessage (by decide) (by decide)
    (by decide)

/-! ## Bit flips in the serialized form -/

theorem flipBit_append_right (p l : List Nat) (i k : Nat) :
    flipBit (p ++ l) (p.length + i) k = p ++ flipBit l i k := by
  unfold flipBit
  have hidx : p.length + i - p.length = i := by omega
  rw [List.getD_append_right p l 0 (p.length + i) (Nat.le_add_right _ _), hidx,
    List.set_append_right _ _ (Nat.le_add_right _ _), hidx]

theorem flipBit_append_left (l r : List Nat) (i k : Nat) (h : i < l.length) :
    flipBit (l ++ r) i k = flipBit l i k ++ r := by
  unfold flipBit
  rw [List.getD_append l r 0 i h, List.set_append_left i _ h]

theorem flipBit_u32be_head (n : Nat) (l : List Nat) (i k : Nat) :
    flipBit (u32be n ++ l) (4 + i) k = u32be n ++ flipBit l i k := by
  have h := flipBit_append_right (u32be n) l i k
  rw [u32be_length] at h
  exact h

theorem flipBit_four_head (a0 a1 a2 a3 : Nat) (l : List Nat) (i k : Nat) :
    flipBit ([a0, a1, a2, a3] ++ l) (4 + i) k =
      [a0, a1, a2, a3] ++ flipBit l i k := by
  have h := flipBit_append_right [a0, a1, a2, a3] l i k
  rw [show ([a0, a1, a2, a3] : List Nat).length = 4 from rfl] at h
  exact h

theorem u32beDecode_flip_ne (c i k : Nat) (hc : c < 2 ^ 32) (hi : i < 4)
    (hk : k < 8) : u32beDecode (flipBit (u32be c) i k) ≠ c := by
  have hpow7 : (2 : Nat) ^ k ≤ 2 ^ 7 :=
    Nat.pow_le_pow_right (by norm_num) (by omega)
  have hpow : (2 : Nat) ^ k < 256 := lt_of_le_of_lt hpow7 (by norm_num)
  have hq0 : c / 2 ^ 24 % 256 < 256 := Nat.mod_lt _ (by norm_num)
  have hq1 : c / 2 ^ 16 % 256 < 256 := Nat.mod_lt _ (by norm_num)
  have hq2 : c / 2 ^ 8 % 256 < 256 := Nat.mod_lt _ (by norm_num)
  have hq3 : c % 256 < 256 := Nat.mod_lt _ (by norm_num)
  have hpne : (2 : Nat) ^ k ≠ 0 := pow_ne_zero k (by norm_num)
  have hxor : ∀ q : Nat, q < 256 → q ^^^ 2 ^ k < 256 := by
    intro q hq
    have h1 : q < 2 ^ 8 := lt_of_lt_of_le hq (by norm_num)
    have h2 : (2 : Nat) ^ k < 2 ^ 8 := lt_of_lt_of_le hpow (by norm_num)
    exact lt_of_lt_of_le (Nat.xor_lt_two_pow h1 h2) (by norm_num)
  have hcancel : ∀ q : Nat, q ^^^ 2 ^ k = q → False := by
    intro q hEq
    have h2 : (2 : Nat) ^ k = q ^^^ (q ^^^ 2 ^ k) :=
      (Nat.xor_cancel_left q (2 ^ k)).symm
    rw [hEq, Nat.xor_self] at h2
    exact hpne h2
  interval_cases i
  · intro hEq
    rw [show flipBit (u32be c) 0 k =
        [c / 2 ^ 24 % 256 ^^^ 2 ^ k, c / 2 ^ 16 % 256, c / 2 ^ 8 % 256,
          c % 256] from rfl] at hEq
    have hEq2 : u32beDecode
        [c / 2 ^ 24 % 256 ^^^ 2 ^ k, c / 2 ^ 16 % 256, c / 2 ^ 8 % 256,
          c % 256] = u32beDecode (u32be c) := by
      rw [u32beDecode_u32be c hc]
      exact hEq
    exact hcancel _ (u32beDecode_inj (hxor _ hq0) hq1 hq2 hq3 hq0 hq1 hq2 hq3
      hEq2).1
  · intro hEq
    rw [show flipBit (u32be c) 1 k =
        [c / 2 ^ 24 % 256, c / 2 ^ 16 % 256 ^^^ 2 ^ k, c / 2 ^ 8 % 256,
          c % 256] from rfl] at hEq
    have hEq2 : u32beDecode
        [c / 2 ^ 24 % 256, c / 2 ^ 16 % 256 ^^^ 2 ^ k, c / 2 ^ 8 % 256,
          c % 256] = u32beDecode (u32be c) := by
      rw [u32beDecode_u32be c hc]
      exact hEq
    exact hcancel _ (u32beDecode_inj hq0 (hxor _ hq1) hq2 hq3 hq0 hq1 hq2 hq3
      hEq2).2.1
  · intro hEq
    rw [show flipBit (u32be c) 2 k =
        [c / 2 ^ 24 % 256, c / 2 ^ 16 % 256, c / 2 ^ 8 % 256 ^^^ 2 ^ k,
          c % 256] from rfl] at hEq
    have hEq2 : u32beDecode
        [c / 2 ^ 24 % 256, c / 2 ^ 16 % 256, c / 2 ^ 8 % 256 ^^^ 2 ^ k,
          c % 256] = u32beDecode (u32be c) := by
      rw [u32beDecode_u32be c hc]
      exact hEq
    exact hcancel _ (u32beDecode_inj hq0 hq1 (hxor _ hq2) hq3 hq0 hq1 hq2 hq3
      hEq2).2.2.1
  · intro hEq
    rw [show flipBit (u32be c) 3 k =
        [c / 2 ^ 24 % 256, c / 2 ^ 16 % 256, c / 2 ^ 8 % 256,
          c % 256 ^^^ 2 ^ k] from rfl] at hEq
    have hEq2 : u32beDecode
        [c / 2 ^ 24 % 256, c / 2 ^ 16 % 256, c / 2 ^ 8 % 256,
          c % 256 ^^^ 2 ^ k] = u32beDecode (u32be c) := by
      rw [u32beDecode_u32be c hc]
      exact hEq
    exact hcancel _ (u32beDecode_inj hq0 hq1 hq2 (hxor _ hq3) hq0 hq1 hq2 hq3
      hEq2).2.2.2

theorem all_letters_four {t0 t1 t2 t3 : Nat}
    (h : ([t0, t1, t2, t3] : List Nat).all isAsciiLetter = true) :
    isAsciiLetter t0 = true ∧ isAsciiLetter t1 = true ∧
      isAsciiLetter t2 = true ∧ isAsciiLetter t3 = true := by
  simp only [List.all_eq_true, List.mem_cons, forall_eq_or_imp,
    List.not_mem_nil, false_implies, forall_eq, and_true] at h
  exact ⟨h.1, h.2.1, h.2.2.1, h.2.2.2.1⟩

theorem all_bytes_lt {d : List Nat}
    (h : (d.all fun b => decide (b < 256)) = true) : ∀ b ∈ d, b < 256 := by
  simp only [List.all_eq_true, decide_eq_true_eq] at h
  exact h

theorem crc32_type_data_lt (t0 t1 t2 t3 : Nat) (d : List Nat)
    (h0 : isAsciiLetter t0 = true) (h1 : isAsciiLetter t1 = true)
    (h2 : isAsciiLetter t2 = true) (h3 : isAsciiLetter t3 = true)
    (hd : ∀ b ∈ d, b < 256) : crc32 ([t0, t1, t2, t3] ++ d) < 2 ^ 32 := by
  apply crc32_lt
  intro b hb
  rcases List.mem_append.mp hb with h | h
  · simp only [List.mem_cons, List.not_mem_nil, or_false] at h
    rcases h with h | h | h | h <;> subst h
    · exact lt_trans (isAsciiLetter_lt _ h0) (by norm_num)
    · exact lt_trans (isAsciiLetter_lt _ h1) (by norm_num)
    · exact lt_trans (isAsciiLetter_lt _ h2) (by norm_num)
    · exact lt_trans (isAsciiLetter_lt _ h3) (by norm_num)
  · exact hd b h

/-- C4: `Chunk::try_from` fails with `MismatchCrc` exactly when the checksum
recomputed over type bytes ++ data differs from the checksum field read from
the buffer (and no record is returned then); consequently flipping any single
bit in the data region or the checksum region of a well-formed record's
serialization makes the parse fail with `MismatchCrc`. -/
theorem mismatch_crc_characterization :
    (∀ l0 l1 l2 l3 t0 t1 t2 t3 : Nat, ∀ d : List Nat,
        ∀ c0 c1 c2 c3 : Nat, ∀ r : List Nat,
        d.length = u32beDecode [l0, l1, l2, l3] →
        ([t0, t1, t2, t3].all isAsciiLetter) = true →
          (Chunk.try_from
              (l0 :: l1 :: l2 :: l3 :: t0 :: t1 :: t2 :: t3 ::
                (d ++ c0 :: c1 :: c2 :: c3 :: r)) =
              .error .MismatchCrc ↔
            crc32 ([t0, t1, t2, t3] ++ d) ≠ u32beDecode [c0, c1, c2, c3])) ∧
      (∀ c : Chunk, c.WF → ∀ j k : Nat, j < c.data.length → k < 8 →
        Chunk.try_from (flipBit c.as_bytes (8 + j) k) = .error .MismatchCrc) ∧
      (∀ c : Chunk, c.WF → ∀ i k : Nat, i < 4 → k < 8 →
        Chunk.try_from (flipBit c.as_bytes (8 + c.data.length + i) k) =
          .error .MismatchCrc) := by
  refine ⟨?_, ?_, ?_⟩
  · intro l0 l1 l2 l3 t0 t1 t2 t3 d c0 c1 c2 c3 r hd ht
    obtain ⟨h0, h1, h2, h3⟩ := all_letters_four ht
    rw [Chunk.try_from_framed l0 l1 l2 l3 t0 t1 t2 t3 d c0 c1 c2 c3 r hd
      h0 h1 h2 h3]
    by_cases hcrc :
        crc32 ([t0, t1, t2, t3] ++ d) = u32beDecode [c0, c1, c2, c3] <;>
      simp [hcrc]
  · intro c hwf j k hj hk
    obtain ⟨len, t, d, crc⟩ := c
    obtain ⟨t0, t1, t2, t3⟩ := t
    obtain ⟨hlen, hlt, hcrcEq, hletters, hbytes⟩ := hwf
    dsimp only at hlen hlt hbytes hj
    simp only [ChunkType.bytes] at hcrcEq hletters
    obtain ⟨h0, h1, h2, h3⟩ := all_letters_four hletters
    have hdb : ∀ b ∈ d, b < 256 := all_bytes_lt hbytes
    have hcc : crc32 ([t0, t1, t2, t3] ++ d) < 2 ^ 32 :=
      crc32_type_data_lt t0 t1 t2 t3 d h0 h1 h2 h3 hdb
    have habytes : (Chunk.mk len ⟨t0, t1, t2, t3⟩ d crc).as_bytes =
        u32be len ++ ([t0, t1, t2, t3] ++ (d ++ u32be crc)) := rfl
    rw [habytes, hlen, hcrcEq,
      show 8 + j = 4 + (4 + j) from by omega, flipBit_u32be_head,
      flipBit_four_head, flipBit_append_left d _ j k hj,
      show ([t0, t1, t2, t3] : List Nat) ++
          (flipBit d j k ++ u32be (crc32 ([t0, t1, t2, t3] ++ d))) =
        t0 :: t1 :: t2 :: t3 ::
          (flipBit d j k ++ u32be (crc32 ([t0, t1, t2, t3] ++ d))) from rfl,
      Chunk.try_from_encoded d.length t0 t1 t2 t3 (flipBit d j k)
        (crc32 ([t0, t1, t2, t3] ++ d)) hlt (flipBit_length d j k) hcc
        h0 h1 h2 h3]
    rw [if_pos ?_]
    rw [show ([t0, t1, t2, t3] : List Nat) ++ flipBit d j k =
      flipBit ([t0, t1, t2, t3] ++ d) (4 + j) k from
      (flipBit_four_head t0 t1 t2 t3 d j k).symm]
    refine crc32_flipBit_ne _ (4 + j) k ?_ hk
    simp only [List.length_append, List.length_cons, List.length_nil]
    omega
  · intro c hwf i k hi hk
    obtain ⟨len, t, d, crc⟩ := c
    obtain ⟨t0, t1, t2, t3⟩ := t
    obtain ⟨hlen, hlt, hcrcEq, hletters, hbytes⟩ := hwf
    dsimp only at hlen hlt hbytes ⊢
    simp only [ChunkType.bytes] at hcrcEq hletters
    obtain ⟨h0, h1, h2, h3⟩ := all_letters_four hletters
    have hdb : ∀ b ∈ d, b < 256 := all_bytes_lt hbytes
    have hcc : crc32 ([t0, t1, t2, t3] ++ d) < 2 ^ 32 :=
      crc32_type_data_lt t0 t1 t2 t3 d h0 h1 h2 h3 hdb
    have habytes : (Chunk.mk len ⟨t0, t1, t2, t3⟩ d crc).as_bytes =
        u32be len ++ ([t0, t1, t2, t3] ++ (d ++ u32be crc)) := rfl
    rw [habytes, hlen, hcrcEq,
      show 8 + d.length + i = 4 + (4 + (d.length + i)) from by omega,
      flipBit_u32be_head, flipBit_four_head,
      flipBit_append_right d (u32be (crc32 ([t0, t1, t2, t3] ++ d))) i k]
    have hflen4 :
        (flipBit (u32be (crc32 ([t0, t1, t2, t3] ++ d))) i k).length = 4 := by
      rw [flipBit_length, u32be_length]
    rcases hfl : flipBit (u32be (crc32 ([t0, t1, t2, t3] ++ d))) i k with
      _ | ⟨y0, _ | ⟨y1, _ | ⟨y2, _ | ⟨y3, tail⟩⟩⟩⟩ <;>
      rw [hfl] at hflen4 <;> try simp at hflen4
    try subst hflen4
    rw [show u32be d.length ++
          ([t0, t1, t2, t3] ++ (d ++ ([y0, y1, y2, y3] : List Nat))) =
        (d.length / 2 ^ 24 % 256) :: (d.length / 2 ^ 16 % 256) ::
          (d.length / 2 ^ 8 % 256) :: (d.length % 256) ::
          t0 :: t1 :: t2 :: t3 :: (d ++ y0 :: y1 :: y2 :: y3 :: []) from rfl,
      Chunk.try_from_framed (d.length / 2 ^ 24 % 256) (d.length / 2 ^ 16 % 256)
        (d.length / 2 ^ 8 % 256) (d.length % 256) t0 t1 t2 t3 d y0 y1 y2 y3 []
        (u32beDecode_u32be d.length hlt).symm h0 h1 h2 h3]
    rw [if_pos ?_]
    rw [show ([y0, y1, y2, y3] : List Nat) =
      flipBit (u32be (crc32 ([t0, t1, t2, t3] ++ d))) i k from hfl.symm]
    exact fun hEq =>
      (u32beDecode_flip_ne (crc32 ([t0, t1, t2, t3] ++ d)) i k hcc hi hk)
        hEq.symm

/-- C4 witness: both flip properties and the characterization instantiated at
a concrete three-byte record. -/
theorem mismatch_crc_characterization_witness :
    Chunk.try_from
        (flipBit (Chunk.new ⟨82, 117, 83, 116⟩ [1, 2, 3]).as_bytes (8 + 1) 0) =
      .error .MismatchCrc ∧
    Chunk.try_from
        (flipBit (Chunk.new ⟨82, 117, 83, 116⟩ [1, 2, 3]).as_bytes
          (8 + 3 + 2) 5) =
      .error .MismatchCrc :=
  ⟨mismatch_crc_characterization.2.1 (Chunk.new ⟨82, 117, 83, 116⟩ [1, 2, 3])
      (by decide) 1 0 (by decide) (by decide),
    mismatch_crc_characterization.2.2 (Chunk.new ⟨82, 117, 83, 116⟩ [1, 2, 3])
      (by decide) 2 5 (by decide) (by decide)⟩

/-! ## Equivalence of the two parser implementations -/

theorem sliceRange_zero_four (v : List Nat) :
    Chunks.sliceRange 0 4 v = v.take 4 := by
  rw [sliceRange_eq, List.drop_zero]

theorem sliceRange_four_eight (v : List Nat) :
    Chunks.sliceRange 4 8 v = (v.drop 4).take 4 := by
  rw [sliceRange_eq]

theorem sliceRange_data (n : Nat) (v : List Nat) :
    Chunks.sliceRange 8 (8 + n) v = (v.drop 8).take n := by
  rw [sliceRange_eq, Nat.add_sub_cancel_left]

theorem sliceRange_crc (n : Nat) (v : List Nat) :
    Chunks.sliceRange (8 + n) (8 + 4 + n) v = (v.drop (8 + n)).take 4 := by
  rw [sliceRange_eq, show 8 + 4 + n - (8 + n) = 4 from by omega]

/-- C9 counterexample: on the four-byte buffer [0,0,0,0] the iterator-based
parser of src/chunk.rs returns the typed error `ChunkType InvalidLen`, while
the index-filter parser of src/chunks.rs panics on its `unwrap` (modelled by
`none`), so the two implementations are not equivalent as total functions. -/
theorem parsers_diverge_on_short_input :
    Chunks.Chunk.try_from [0, 0, 0, 0] = none ∧
      Chunk.try_from [0, 0, 0, 0] = .error (.ChunkType .InvalidLen) := by
  decide

/-- C9 (amended): on every input with fewer than 4 bytes or at least 8 bytes
the two parsers are equivalent: the src/chunks.rs parser never panics and
returns exactly the src/chunk.rs result, with all four record fields
preserved and the error tags in correspondence (InvalidLength/InvalidLength,
ChunkType/InvalidChunkType, InvalidCrc/InvalidCrc, MismatchCrc/MismatchCrc).
On inputs of 4 to 7 bytes they diverge: src/chunk.rs returns an error and
src/chunks.rs panics. -/
theorem parsers_agree (v : List Nat) (hv : v.length < 4 ∨ 8 ≤ v.length) :
    Chunks.Chunk.try_from v = some (chunkResultToChunks (Chunk.try_from v)) := by
  rcases v with _ | ⟨l0, _ | ⟨l1, _ | ⟨l2, _ | ⟨l3, _ | ⟨t0, _ | ⟨t1, _ |
    ⟨t2, _ | ⟨t3, r2⟩⟩⟩⟩⟩⟩⟩⟩
  · rfl
  · rfl
  · rfl
  · rfl
  · exfalso
    rcases hv with h | h <;> simp at h
  · exfalso
    rcases hv with h | h <;> simp at h
  · exfalso
    rcases hv with h | h <;> simp at h
  · exfalso
    rcases hv with h | h <;> simp at h
  have e1 : (l0 :: l1 :: l2 :: l3 :: t0 :: t1 :: t2 :: t3 :: r2 :
      List Nat).take 4 = [l0, l1, l2, l3] := rfl
  have e2 : ((l0 :: l1 :: l2 :: l3 :: t0 :: t1 :: t2 :: t3 :: r2 :
      List Nat).drop 4).take 4 = [t0, t1, t2, t3] := rfl
  have e3 : (l0 :: l1 :: l2 :: l3 :: t0 :: t1 :: t2 :: t3 :: r2 :
      List Nat).drop 8 = r2 := rfl
  unfold Chunks.Chunk.try_from Chunk.try_from
  rw [Chunk.try_from_stream_cons8, sliceRange_zero_four, sliceRange_four_eight,
    e1, e2]
  dsimp only
  rw [sliceRange_data, sliceRange_crc, e3, ← List.drop_drop, e3]
  cases hct : ChunkType.try_from t0 t1 t2 t3 with
  | error e => rfl
  | ok ct =>
    rcases hdrop : r2.drop (u32beDecode [l0, l1, l2, l3]) with
      _ | ⟨c0, _ | ⟨c1, _ | ⟨c2, _ | ⟨c3, r4⟩⟩⟩⟩
    · rfl
    · rfl
    · rfl
    · rfl
    by_cases hcc : crc32 (ct.bytes ++ r2.take (u32beDecode [l0, l1, l2, l3])) =
        u32beDecode [c0, c1, c2, c3] <;>
      simp [Chunk.new, Chunks.Chunk.new, hcc, Except.map, chunkResultToChunks,
        Chunk.toChunks, ChunkError.toChunks]

/-- C9 witness: the equivalence instantiated at the concrete test buffer. -/
theorem parsers_agree_witness :
    Chunks.Chunk.try_from testBuffer =
      some (chunkResultToChunks (Chunk.try_from testBuffer)) :=
  parsers_agree testBuffer (by decide)

/-- C7 witness: the invariant instantiated at a concrete fresh record and at
the concrete parse of the test buffer. -/
theorem record_invariant_witness :
    ((Chunk.new ⟨82, 117, 83, 116⟩ [7]).length = [7].length ∧
        (Chunk.new ⟨82, 117, 83, 116⟩ [7]).crc =
          crc32 (ChunkType.bytes ⟨82, 117, 83, 116⟩ ++ [7])) ∧
      ((Chunk.new ⟨82, 117, 83, 116⟩ testMessage).length =
          (Chunk.new ⟨82, 117, 83, 116⟩ testMessage).data.length ∧
        (Chunk.new ⟨82, 117, 83, 116⟩ testMessage).crc =
          crc32 ((Chunk.new ⟨82, 117, 83, 116⟩ testMessage).chunk_type.bytes ++
            (Chunk.new ⟨82, 117, 83, 116⟩ testMessage).data)) :=
  ⟨record_invariant.1 ⟨82, 117, 83, 116⟩ [7] (by norm_num),
    record_invariant.2 testBuffer (by decide)
      (Chunk.new ⟨82, 117, 83, 116⟩ testMessage) (by decide)⟩

end Pngme

